import Mathlib

/-!
Verification of the flower-classification notebook (guide.ipynb).

The notebook is glue code over the Keras API.  The definitions below embed,
on one hand, the code the notebook itself contains (the dataset existence
check, the label decoding loop, the freeze loop, the head assembly, the
sequencing of the steps) and, on the other hand, the documented behaviour of
the Keras primitives the notebook calls (layer construction, `model.fit`,
`ImageDataGenerator`, directory iteration).  The latter definitions carry a
doc comment starting with `Modelled from the spec:` since that code is not
part of this repository.
-/

namespace Flowers

/-- Modelled from the spec: a Keras layer as the notebook observes it, a
`trainable` flag together with the weight tensors of the layer (flattened to
a list of rationals).  Keras creates layers with `trainable` set to true by
default. -/
structure KLayer where
  trainable : Bool
  weights : List ℚ
deriving Repr, DecidableEq

/-- Modelled from the spec: the Keras `VGG19` factory returns a model whose
layers carry the downloaded imagenet weights `ws` and are trainable by
default.  The same layer model covers both the `include_top=True` form of
step 2 and the headless pooled form of step 4, the difference being only
which weight lists are passed. -/
def vgg19 (ws : List (List ℚ)) : List KLayer :=
  ws.map (fun w => { trainable := true, weights := w })

/-- The freeze loop of step 4 of the notebook:
`for layer in pretrained.layers: layer.trainable = False`. -/
def freezeAll (m : List KLayer) : List KLayer :=
  m.map (fun l => { l with trainable := false })

/-- Modelled from the spec: one `model.fit` call runs gradient updates that
modify exactly the weights of the layers whose `trainable` flag is set;
layers with `trainable = false` are excluded from gradient updates.  The
update computed by backpropagation is abstracted into the function `upd`. -/
def fitUpdate (upd : List ℚ → List ℚ) (m : List KLayer) : List KLayer :=
  m.map (fun l => if l.trainable then { l with weights := upd l.weights } else l)

/-- Modelled from the spec: `model.predict` computes outputs by a forward
pass (abstracted into `forward`) and performs no weight update: it returns
the unchanged model together with the predictions. -/
def predict (forward : List KLayer → List ℚ → List ℚ)
    (m : List KLayer) (x : List ℚ) : List KLayer × List ℚ :=
  (m, forward m x)

/-- Fresh weights for the two Dense layers of the classification head, as
drawn by the Keras weight initializer when the layer object is constructed. -/
structure HeadInit where
  hiddenW : List ℚ
  predsW : List ℚ

/-- The head layers as freshly constructed by `Dense(128, ...)` and
`Dense(17, ...)`: new layer objects, trainable by default, holding the
freshly initialized weights.  The Dropout layer of step 5 has no weights and
therefore contributes no entry here. -/
def freshHead (hi : HeadInit) : List KLayer :=
  [{ trainable := true, weights := hi.hiddenW },
   { trainable := true, weights := hi.predsW }]

/-- The step 4 model as assembled in the notebook: the headless pretrained
extractor after the freeze loop, followed by the freshly constructed head. -/
def step4Model (ws : List (List ℚ)) (i1 : HeadInit) : List KLayer :=
  freezeAll (vgg19 ws) ++ freshHead i1

/-- The state of the step 4 model after its `model.fit` call. -/
def step4Trained (ws : List (List ℚ)) (i1 : HeadInit)
    (upd : List ℚ → List ℚ) : List KLayer :=
  fitUpdate upd (step4Model ws i1)

/-- The step 5 model: `Model(inputs, preds)` built from the `inputs` and
`outputs` tensors captured from the same pretrained object, so its extractor
part is the pretrained layers in whatever state step 4 left them (no second
freeze loop is run), followed by newly constructed Dense layers with fresh
initial weights `i2`. -/
def step5Model (ws : List (List ℚ)) (i1 : HeadInit)
    (upd : List ℚ → List ℚ) (i2 : HeadInit) : List KLayer :=
  (step4Trained ws i1 upd).take ws.length ++ freshHead i2

/-- The ReLU activation used by the hidden Dense layer. -/
def relu (x : ℚ) : ℚ := max x 0

/-- Modelled from the spec: the forward pass of a Keras `Dense(units)` layer
with an elementwise activation.  `W j x` is the affine map of unit `j`
(its weight row dotted with the input plus its bias), abstracted into a
function. -/
def denseForward (units : Nat) (W : Nat → List ℚ → ℚ) (act : ℚ → ℚ)
    (x : List ℚ) : List ℚ :=
  (List.range units).map (fun j => act (W j x))

/-- Modelled from the spec: the softmax activation over a whole vector, each
entry divided by the sum after applying the exponential map `e`. -/
def softmax (e : ℚ → ℚ) (v : List ℚ) : List ℚ :=
  v.map (fun x => e x / (v.map e).sum)

/-- Modelled from the spec: the forward pass of `Dense(units,
activation=softmax)`: the affine outputs of the units followed by softmax
over the resulting vector. -/
def denseSoftmax (units : Nat) (e : ℚ → ℚ) (W : Nat → List ℚ → ℚ)
    (x : List ℚ) : List ℚ :=
  softmax e ((List.range units).map (fun j => W j x))

/-- Modelled from the spec: a Keras `Dropout(rate)` layer.  In training mode
it zeroes the units dropped by the random mask `keep` and rescales the kept
ones by `1 / (1 - rate)`; in inference mode it is the identity. -/
def dropoutForward (rate : ℚ) (keep : Nat → Bool) (training : Bool)
    (x : List ℚ) : List ℚ :=
  if training then x.mapIdx (fun i v => if keep i then v / (1 - rate) else 0)
  else x

/-- The classifier head as assembled in the notebook: `Dense(128, relu)` on
the pooled extractor output, in the step 5 variant followed by
`Dropout(0.3)`, then `Dense(17, softmax)`. -/
def headForward (useDropout : Bool) (keep : Nat → Bool) (training : Bool)
    (e : ℚ → ℚ) (Wh Wp : Nat → List ℚ → ℚ) (pooled : List ℚ) : List ℚ :=
  let hidden := denseForward 128 Wh relu pooled
  let regOut := if useDropout then dropoutForward (3 / 10) keep training hidden
                else hidden
  denseSoftmax 17 e Wp regOut

/-- The assembled flower model: the pooled output of the frozen extractor
(abstracted into `extract`) fed through the classifier head. -/
def modelForward (extract : List ℚ → List ℚ) (useDropout : Bool)
    (keep : Nat → Bool) (training : Bool) (e : ℚ → ℚ)
    (Wh Wp : Nat → List ℚ → ℚ) (img : List ℚ) : List ℚ :=
  headForward useDropout keep training e Wh Wp (extract img)

/-- An image, as a list of pixel rows. -/
abbrev Image := List (List ℚ)

/-- Modelled from the spec: the horizontal flip augmentation mirrors every
pixel row of the image. -/
def hflip (img : Image) : Image := img.map List.reverse

/-- Modelled from the spec: the `ImageDataGenerator` configuration the
notebook uses, an optional preprocessing function and the `horizontal_flip`
switch. -/
structure GenConfig where
  preprocessingFunction : Option (Image → Image)
  horizontalFlip : Bool

/-- Modelled from the spec: the transformation `ImageDataGenerator` applies
to one sample before serving it: the random augmentation first (a horizontal
flip when the option is on and the per-sample coin `coin` comes up true),
then the configured preprocessing function. -/
def transformSample (g : GenConfig) (coin : Bool) (img : Image) : Image :=
  let aug := if g.horizontalFlip && coin then hflip img else img
  match g.preprocessingFunction with
  | some f => f aug
  | none => aug

/-- One-hot encoding of class index `i` among `n` classes. -/
def oneHot (n i : Nat) : List ℚ :=
  (List.range n).map (fun j => if j = i then 1 else 0)

/-- Modelled from the spec: a batch served by the generator.  Each raw
sample is a pair of an image and the class index of the directory it was
loaded from; each sample is transformed with its own augmentation coin and
paired with the one-hot encoding of its label. -/
def serveBatch (g : GenConfig) (numClasses : Nat)
    (samples : List (Image × Nat)) (coins : List Bool) :
    List (Image × List ℚ) :=
  (samples.zip coins).map
    (fun p => (transformSample g p.2 p.1.1, oneHot numClasses p.1.2))

/-- Modelled from the spec: a Keras directory iterator over `n` samples with
batch size `bs` yields `ceil(n / bs)` batches in one pass over the dataset. -/
def numBatches (n bs : Nat) : Nat := (n + bs - 1) / bs

/-- Modelled from the spec: batch `i` of one pass holds the samples from
`bs * i` up to `min (bs * (i + 1)) n`, so its size is `bs` except for the
final batch, which holds the remainder. -/
def batchSize (n bs i : Nat) : Nat := min bs (n - bs * i)

/-- Modelled from the spec: `np.argmax` over a list, the index of the first
occurrence of the maximum (0 for an empty list). -/
def argmax (v : List ℚ) : Nat :=
  match v.maximum with
  | none => 0
  | some m => v.indexOf m

/-- Modelled from the spec: Keras `class_indices` maps each class directory
name to its position in the alphabetically sorted list of class names.  We
render the mapping as the list of (name, index) pairs in iteration order. -/
def classIndexPairs (classes : List String) : List (String × Nat) :=
  ((classes.mergeSort (· ≤ ·)).enum).map (fun p => (p.2, p.1))

/-- The position a class name is mapped to by `class_indices`. -/
def classIndexOf (classes : List String) (c : String) : Nat :=
  (classes.mergeSort (· ≤ ·)).indexOf c

/-- The label decoding loop of the notebook:
`labels = [None] * 17; for key in indices: labels[indices[key]] = key`,
returning `none` exactly when an assignment index is out of range, as the
Python assignment would raise IndexError there. -/
def decodeLoop : List (String × Nat) → List (Option String) →
    Option (List (Option String))
  | [], labels => some labels
  | (k, i) :: rest, labels =>
      if i < labels.length then decodeLoop rest (labels.set i (some k))
      else none

/-- The initial `labels = [None] * 17` list. -/
def initialLabels : List (Option String) := List.replicate 17 none

/-- A filesystem, as the list of directory paths that exist. -/
abbrev FileSystem := List String

/-- Modelled from the spec: `os.path.isdir` is a pure query returning a
boolean; a missing directory yields `false`, never an exception. -/
def isdir (fs : FileSystem) (p : String) : Bool := fs.contains p

/-- The path join `os.path.join(a, b)` for the two-component case used by
the notebook. -/
def joinPath (a b : String) : String := a ++ "/" ++ b

/-- The dataset existence check cell: one `os.path.isdir` query for
`flowers`, `flowers/train` and `flowers/val`, reported as three booleans. -/
def datasetCheck (fs : FileSystem) : Bool × Bool × Bool :=
  (isdir fs "flowers",
   isdir fs (joinPath "flowers" "train"),
   isdir fs (joinPath "flowers" "val"))

/-- The notebook run as the sequential composition of its five steps
(existence check, generator construction, pretrained model acquisition,
head assembly and compile, training).  Each step is a call into a library
that may fail with an exception of type `ε`; the notebook installs no
try/except anywhere, so the steps are chained by plain monadic bind. -/
def runNotebook {ε A1 A2 A3 A4 A5 : Type} (s1 : Except ε A1)
    (s2 : A1 → Except ε A2) (s3 : A2 → Except ε A3)
    (s4 : A3 → Except ε A4) (s5 : A4 → Except ε A5) : Except ε A5 :=
  s1.bind fun a1 => (s2 a1).bind fun a2 => (s3 a2).bind fun a3 =>
    (s4 a3).bind fun a4 => s5 a4

/-! Helper lemmas about layers, freezing and fitting. -/

lemma vgg19_length (ws : List (List ℚ)) : (vgg19 ws).length = ws.length := by
  simp [vgg19]

lemma freezeAll_length (m : List KLayer) :
    (freezeAll m).length = m.length := by
  simp [freezeAll]

lemma freezeAll_trainable (m : List KLayer) :
    ∀ l ∈ freezeAll m, l.trainable = false := by
  intro l hl
  simp only [freezeAll, List.mem_map] at hl
  obtain ⟨a, _, rfl⟩ := hl
  rfl

lemma fitUpdate_append (upd : List ℚ → List ℚ) (a b : List KLayer) :
    fitUpdate upd (a ++ b) = fitUpdate upd a ++ fitUpdate upd b := by
  simp [fitUpdate]

lemma fitUpdate_freezeAll (upd : List ℚ → List ℚ) (m : List KLayer) :
    fitUpdate upd (freezeAll m) = freezeAll m := by
  simp [fitUpdate, freezeAll, List.map_map]

lemma step4Trained_eq (ws : List (List ℚ)) (i1 : HeadInit)
    (upd : List ℚ → List ℚ) :
    step4Trained ws i1 upd = freezeAll (vgg19 ws) ++ fitUpdate upd (freshHead i1) := by
  rw [step4Trained, step4Model, fitUpdate_append, fitUpdate_freezeAll]

lemma freezeAll_vgg19_length (ws : List (List ℚ)) :
    (freezeAll (vgg19 ws)).length = ws.length := by
  rw [freezeAll_length, vgg19_length]

/-- C1: in the assembled model every layer of the pretrained extractor has
trainable set to false before training begins, and the single fit call
leaves the extractor portion of the model identical to its state before the
call, updating only the head layers. -/
theorem extractor_frozen_and_unchanged_by_fit (ws : List (List ℚ))
    (i1 : HeadInit) (upd : List ℚ → List ℚ) :
    (∀ l ∈ freezeAll (vgg19 ws), l.trainable = false) ∧
    (step4Trained ws i1 upd).take ws.length = freezeAll (vgg19 ws) ∧
    (step4Trained ws i1 upd).drop ws.length = fitUpdate upd (freshHead i1) := by
  refine ⟨freezeAll_trainable _, ?_, ?_⟩
  · rw [step4Trained_eq, ← freezeAll_vgg19_length ws, List.take_left]
  · rw [step4Trained_eq, ← freezeAll_vgg19_length ws, List.drop_left]

/-- C3 counterexample: at the time the full VGG19 runs its sanity-check
prediction, its layers are not all frozen; with a concrete (one-layer)
weight archive the freshly built model has a layer with trainable = true,
since the notebook never sets trainable on this model and Keras defaults it
to true. -/
theorem full_vgg19_not_frozen_at_sanity_check :
    ¬ ∀ l ∈ vgg19 [[(1 : ℚ)]], l.trainable = false := by
  intro h
  have hmem : KLayer.mk true [(1 : ℚ)] ∈ vgg19 [[(1 : ℚ)]] := by
    simp [vgg19]
  simpa using h _ hmem

/-- C3 amended: at the sanity-check prediction of step 2 every layer of the
full VGG19 has trainable = true, the Keras default, since the notebook never
freezes this model; the model is frozen only in the sense that the
prediction performs no weight update, returning the model unchanged. -/
theorem full_vgg19_default_trainable_predict_pure (ws : List (List ℚ))
    (forward : List KLayer → List ℚ → List ℚ) (x : List ℚ) :
    (∀ l ∈ vgg19 ws, l.trainable = true) ∧
    (predict forward (vgg19 ws) x).1 = vgg19 ws := by
  constructor
  · intro l hl
    simp only [vgg19, List.mem_map] at hl
    obtain ⟨a, _, rfl⟩ := hl
    rfl
  · rfl

/-- C10: the step 5 model is built on the same pretrained extractor, which
stays frozen with the original imagenet weights without a second freeze
loop, while its head layers are freshly constructed: the resulting model
equals the frozen extractor followed by the fresh head i2, with no
dependence on the step 4 head weights i1 or on the training update upd. -/
theorem step5_reuses_frozen_extractor_fresh_head (ws : List (List ℚ))
    (i1 : HeadInit) (upd : List ℚ → List ℚ) (i2 : HeadInit) :
    step5Model ws i1 upd i2 = freezeAll (vgg19 ws) ++ freshHead i2 ∧
    (∀ l ∈ (step5Model ws i1 upd i2).take ws.length, l.trainable = false) ∧
    (step5Model ws i1 upd i2).drop ws.length = freshHead i2 := by
  have h5 : step5Model ws i1 upd i2 = freezeAll (vgg19 ws) ++ freshHead i2 := by
    rw [step5Model, step4Trained_eq, ← freezeAll_vgg19_length ws, List.take_left]
  refine ⟨h5, ?_, ?_⟩
  · intro l hl
    rw [h5, ← freezeAll_vgg19_length ws, List.take_left] at hl
    exact freezeAll_trainable _ l hl
  · rw [h5, ← freezeAll_vgg19_length ws, List.drop_left]

/-! Helper lemmas about softmax. -/

lemma sum_map_div (l : List ℚ) (S : ℚ) :
    (l.map (fun x => x / S)).sum = l.sum / S := by
  induction l with
  | nil => simp
  | cons a t ih => simp [ih, add_div]

lemma softmax_length (e : ℚ → ℚ) (v : List ℚ) :
    (softmax e v).length = v.length := by
  simp [softmax]

lemma map_e_sum_pos (e : ℚ → ℚ) (he : ∀ t, 0 < e t) (v : List ℚ)
    (hv : v ≠ []) : 0 < (v.map e).sum := by
  refine List.sum_pos _ ?_ ?_
  · intro x hx
    obtain ⟨a, _, rfl⟩ := List.mem_map.mp hx
    exact he a
  · simpa using hv

lemma softmax_nonneg (e : ℚ → ℚ) (he : ∀ t, 0 < e t) (v : List ℚ)
    (hv : v ≠ []) : ∀ y ∈ softmax e v, 0 ≤ y := by
  intro y hy
  obtain ⟨a, _, rfl⟩ := List.mem_map.mp hy
  exact le_of_lt (div_pos (he a) (map_e_sum_pos e he v hv))

lemma softmax_sum (e : ℚ → ℚ) (he : ∀ t, 0 < e t) (v : List ℚ)
    (hv : v ≠ []) : (softmax e v).sum = 1 := by
  have hmap : softmax e v = (v.map e).map (fun y => y / (v.map e).sum) := by
    simp [softmax, List.map_map, Function.comp]
  rw [hmap, sum_map_div]
  exact div_self (ne_of_gt (map_e_sum_pos e he v hv))

/-- C2: the assembled model feeds the pooled extractor output through
Dense(128, relu), optionally Dropout(0.3), then Dense(17, softmax), so for
every input image its output is a 17-way softmax: 17 entries, each
non-negative, summing to 1 (for any positive exponential map, any dropout
configuration and any weights). -/
theorem assembled_model_softmax_output (extract : List ℚ → List ℚ)
    (useDropout : Bool) (keep : Nat → Bool) (training : Bool) (e : ℚ → ℚ)
    (he : ∀ t, 0 < e t) (Wh Wp : Nat → List ℚ → ℚ) (img : List ℚ) :
    (modelForward extract useDropout keep training e Wh Wp img).length = 17 ∧
    (∀ y ∈ modelForward extract useDropout keep training e Wh Wp img, 0 ≤ y) ∧
    (modelForward extract useDropout keep training e Wh Wp img).sum = 1 := by
  have hv : ∀ x : List ℚ,
      (List.range 17).map (fun j => Wp j x) ≠ [] := by
    intro x h
    have := congrArg List.length h
    simp at this
  rw [modelForward, headForward, denseSoftmax]
  refine ⟨?_, softmax_nonneg e he _ (hv _), softmax_sum e he _ (hv _)⟩
  rw [softmax_length]
  simp

/-- C2 witness: the softmax-output property evaluated at a concrete
configuration. -/
theorem assembled_model_softmax_output_witness :
    (modelForward (fun _ => []) true (fun _ => true) true (fun _ => 1)
      (fun _ _ => 0) (fun _ _ => 0) []).length = 17 ∧
    (∀ y ∈ modelForward (fun _ => []) true (fun _ => true) true (fun _ => 1)
      (fun _ _ => 0) (fun _ _ => 0) [], 0 ≤ y) ∧
    (modelForward (fun _ => []) true (fun _ => true) true (fun _ => 1)
      (fun _ _ => 0) (fun _ _ => 0) []).sum = 1 :=
  assembled_model_softmax_output (fun _ => []) true (fun _ => true) true
    (fun _ => 1) (fun _ => one_pos) (fun _ _ => 0) (fun _ _ => 0) []

/-- C6 counterexample: with a 5-sample dataset a generator of batch size 4
produces two batches during one pass, and the second batch holds 1 sample,
not 4, so not every batch of a pass contains exactly 4 samples. -/
theorem last_batch_not_full_on_five_samples :
    1 < numBatches 5 4 ∧ batchSize 5 4 1 ≠ 4 := by decide

/-- C6 amended: during one pass of a batch-size-4 generator over a nonempty
dataset of n samples, every batch before the last contains exactly 4
samples, every batch is nonempty, and the final batch also contains exactly
4 samples precisely when 4 divides n (otherwise it holds the remainder). -/
theorem batch_size_four_until_exhausted (n i : Nat) (hpos : 0 < n) :
    (i + 1 < numBatches n 4 → batchSize n 4 i = 4) ∧
    (batchSize n 4 (numBatches n 4 - 1) = 4 ↔ 4 ∣ n) ∧
    (i < numBatches n 4 → 0 < batchSize n 4 i) := by
  simp only [numBatches, batchSize]
  omega

/-- C6 amended witness: the batch-size facts evaluated at a dataset of 8
samples and batch index 0. -/
theorem batch_size_four_until_exhausted_witness :
    ((0 : Nat) + 1 < numBatches 8 4 → batchSize 8 4 0 = 4) ∧
    (batchSize 8 4 (numBatches 8 4 - 1) = 4 ↔ 4 ∣ 8) ∧
    (0 < numBatches 8 4 → 0 < batchSize 8 4 0) :=
  batch_size_four_until_exhausted 8 0 (by decide)

/-- C7: the dataset existence check evaluates os.path.isdir on exactly the
three paths flowers, flowers/train and flowers/val, reporting one boolean
per directory, true precisely when the directory exists; a missing
directory therefore yields a false report, not an error, the query being a
total boolean function. -/
theorem dataset_check_reports_booleans (fs : FileSystem) :
    datasetCheck fs =
      (isdir fs "flowers", isdir fs "flowers/train", isdir fs "flowers/val") ∧
    ((datasetCheck fs).1 = true ↔ "flowers" ∈ fs) ∧
    ((datasetCheck fs).2.1 = true ↔ "flowers/train" ∈ fs) ∧
    ((datasetCheck fs).2.2 = true ↔ "flowers/val" ∈ fs) := by
  refine ⟨rfl, ?_, ?_, ?_⟩ <;>
    simp [datasetCheck, isdir, joinPath]

/-- Characterization of when a bind in Except produces an error. -/
lemma bind_error_iff {ε α β : Type} (m : Except ε α) (f : α → Except ε β)
    (e : ε) :
    m.bind f = .error e ↔ m = .error e ∨ ∃ a, m = .ok a ∧ f a = .error e := by
  cases m <;> simp [Except.bind]

/-- C8: the notebook installs no exception handling: a run fails with
exception e exactly when one of its five steps fails with e after all
earlier steps succeeded, i.e. every library failure propagates to the
caller unchanged and no other error is produced. -/
theorem no_exception_handling_errors_propagate {ε A1 A2 A3 A4 A5 : Type}
    (s1 : Except ε A1) (s2 : A1 → Except ε A2) (s3 : A2 → Except ε A3)
    (s4 : A3 → Except ε A4) (s5 : A4 → Except ε A5) (e : ε) :
    runNotebook s1 s2 s3 s4 s5 = .error e ↔
      s1 = .error e ∨ ∃ a1, s1 = .ok a1 ∧
        (s2 a1 = .error e ∨ ∃ a2, s2 a1 = .ok a2 ∧
          (s3 a2 = .error e ∨ ∃ a3, s3 a2 = .ok a3 ∧
            (s4 a3 = .error e ∨ ∃ a4, s4 a3 = .ok a4 ∧
              s5 a4 = .error e))) := by
  simp only [runNotebook, bind_error_iff]

/-- C5: the generator serves batches of (image, one-hot label) pairs: the
i-th served pair is the i-th raw sample transformed with its own
augmentation coin and paired with the one-hot encoding of its directory
label, and the per-sample transformation applies the configured
preprocessing function and flips the image exactly when horizontal_flip is
on and the coin of that sample comes up true. -/
theorem generator_transforms_each_sample (f : Image → Image) (g : GenConfig)
    (n : Nat) (samples : List (Image × Nat)) (coins : List Bool) (i : Nat)
    (s : Image × Nat) (c : Bool)
    (hs : samples[i]? = some s) (hc : coins[i]? = some c) :
    (serveBatch g n samples coins)[i]? =
      some (transformSample g c s.1, oneHot n s.2) ∧
    transformSample { preprocessingFunction := some f,
                      horizontalFlip := false } c s.1 = f s.1 ∧
    transformSample { preprocessingFunction := none,
                      horizontalFlip := true } c s.1 =
      (if c then hflip s.1 else s.1) ∧
    transformSample { preprocessingFunction := some f,
                      horizontalFlip := true } c s.1 =
      f (if c then hflip s.1 else s.1) := by
  refine ⟨?_, ?_, ?_, ?_⟩
  · have hz : (samples.zip coins)[i]? = some (s, c) := by
      rw [List.getElem?_zip_eq_some]
      exact ⟨hs, hc⟩
    simp [serveBatch, List.getElem?_map, hz]
  · simp [transformSample]
  · simp [transformSample]
  · simp [transformSample]

/-- C5 witness: the serving property evaluated on a one-sample batch with
the horizontal-flip generator of step 6 and a true coin. -/
theorem generator_transforms_each_sample_witness :
    (serveBatch { preprocessingFunction := none, horizontalFlip := true } 2
        [([[1, 2]], 0)] [true])[0]? =
      some (transformSample { preprocessingFunction := none,
                              horizontalFlip := true } true [[1, 2]],
            oneHot 2 0) ∧
    transformSample { preprocessingFunction := some hflip,
                      horizontalFlip := false } true [[1, 2]] =
      hflip [[1, 2]] ∧
    transformSample { preprocessingFunction := none,
                      horizontalFlip := true } true [[1, 2]] =
      (if true then hflip [[1, 2]] else [[1, 2]]) ∧
    transformSample { preprocessingFunction := some hflip,
                      horizontalFlip := true } true [[1, 2]] =
      hflip (if true then hflip [[1, 2]] else [[1, 2]]) :=
  generator_transforms_each_sample hflip
    { preprocessingFunction := none, horizontalFlip := true } 2
    [([[1, 2]], 0)] [true] 0 ([[1, 2]], 0) true rfl rfl

/-! Helper lemmas about the label decoding loop. -/

lemma initialLabels_length : initialLabels.length = 17 := rfl

lemma decodeLoop_isSome_iff (pairs : List (String × Nat)) :
    ∀ labels : List (Option String),
      (decodeLoop pairs labels).isSome ↔ ∀ p ∈ pairs, p.2 < labels.length := by
  induction pairs with
  | nil => intro labels; simp [decodeLoop]
  | cons q rest ih =>
      intro labels
      obtain ⟨k, i⟩ := q
      by_cases hi : i < labels.length
      · rw [decodeLoop, if_pos hi]
        rw [ih, List.length_set]
        simp [hi]
      · rw [decodeLoop, if_neg hi]
        simp only [Option.isSome_none, Bool.false_eq_true, false_iff]
        intro h
        exact hi (h (k, i) (List.mem_cons_self _ _))

lemma decodeLoop_spec (pairs : List (String × Nat)) :
    ∀ labels : List (Option String),
      (∀ p ∈ pairs, p.2 < labels.length) →
      (pairs.map Prod.snd).Nodup →
      ∃ L, decodeLoop pairs labels = some L ∧ L.length = labels.length ∧
        (∀ p ∈ pairs, L[p.2]? = some (some p.1)) ∧
        (∀ i, (∀ p ∈ pairs, p.2 ≠ i) → L[i]? = labels[i]?) := by
  induction pairs with
  | nil =>
      intro labels _ _
      exact ⟨labels, rfl, rfl, by simp, fun i _ => rfl⟩
  | cons q rest ih =>
      intro labels hlt hnd
      obtain ⟨k, i⟩ := q
      have hi : i < labels.length := hlt (k, i) (List.mem_cons_self _ _)
      have hlen0 : (labels.set i (some k)).length = labels.length :=
        List.length_set ..
      have hlt2 : ∀ p ∈ rest, p.2 < (labels.set i (some k)).length := by
        intro p hp
        rw [hlen0]
        exact hlt p (List.mem_cons_of_mem _ hp)
      have hndc : (i :: rest.map Prod.snd).Nodup := by simpa using hnd
      have hnd2 := List.nodup_cons.mp hndc
      have hinotin : ∀ p ∈ rest, p.2 ≠ i := by
        intro p hp he
        exact hnd2.1 (he ▸ List.mem_map_of_mem Prod.snd hp)
      obtain ⟨L, hL, hlen, hmem, hout⟩ := ih (labels.set i (some k)) hlt2 hnd2.2
      refine ⟨L, ?_, by rw [hlen, hlen0], ?_, ?_⟩
      · rw [decodeLoop, if_pos hi]
        exact hL
      · intro p hp
        rcases List.mem_cons.mp hp with hpq | hpr
        · rw [hpq]
          rw [hout i hinotin]
          simp [List.getElem?_set_self, hi]
        · exact hmem p hpr
      · intro j hj
        have hij : i ≠ j := fun he => hj (k, i) (List.mem_cons_self _ _) he
        rw [hout j (fun p hp => hj p (List.mem_cons_of_mem _ hp)),
          List.getElem?_set_ne hij]

lemma classIndexPairs_snd (classes : List String) :
    (classIndexPairs classes).map Prod.snd =
      List.range (classes.mergeSort (· ≤ ·)).length := by
  rw [classIndexPairs, List.map_map]
  exact List.enum_map_fst _

lemma mem_classIndexPairs (classes : List String) (c : String) (i : Nat) :
    (c, i) ∈ classIndexPairs classes ↔
      (classes.mergeSort (· ≤ ·))[i]? = some c := by
  rw [classIndexPairs, List.mem_map]
  constructor
  · rintro ⟨⟨j, a⟩, hp, hpe⟩
    cases hpe
    exact List.mem_enum_iff_getElem?.mp hp
  · intro h
    exact ⟨(i, c), List.mem_enum_iff_getElem?.mpr h, rfl⟩

lemma sorted_length (classes : List String) :
    (classes.mergeSort (· ≤ ·)).length = classes.length :=
  List.length_mergeSort ..

lemma mem_sorted (classes : List String) (c : String) :
    c ∈ classes.mergeSort (· ≤ ·) ↔ c ∈ classes :=
  (List.mergeSort_perm classes _).mem_iff

lemma classIndexOf_lt (classes : List String) (c : String) (hc : c ∈ classes) :
    classIndexOf classes c < classes.length := by
  have := List.indexOf_lt_length.mpr ((mem_sorted classes c).mpr hc)
  rwa [sorted_length] at this

lemma classIndexOf_pair_mem (classes : List String) (c : String)
    (hc : c ∈ classes) :
    (c, classIndexOf classes c) ∈ classIndexPairs classes := by
  rw [mem_classIndexPairs, classIndexOf]
  have hcs : c ∈ classes.mergeSort (· ≤ ·) := (mem_sorted classes c).mpr hc
  rw [List.getElem?_eq_getElem (List.indexOf_lt_length.mpr hcs)]
  simp [List.getElem_indexOf]

/-! Helper lemmas about argmax and one-hot vectors. -/

lemma oneHot_length (n i : Nat) : (oneHot n i).length = n := by simp [oneHot]

lemma oneHot_getElem (n i j : Nat) (h : j < n) :
    (oneHot n i)[j]? = some (if j = i then 1 else 0) := by
  simp [oneHot, List.getElem?_map, List.getElem?_range, h]

lemma oneHot_maximum (n i : Nat) (h : i < n) :
    (oneHot n i).maximum = ((1 : ℚ) : WithBot ℚ) := by
  rw [List.maximum_eq_coe_iff]
  constructor
  · have h1 : (oneHot n i)[i]? = some 1 := by
      rw [oneHot_getElem n i i h]
      simp
    exact List.getElem?_mem h1
  · intro b hb
    rw [oneHot] at hb
    obtain ⟨j, _, rfl⟩ := List.mem_map.mp hb
    split <;> norm_num

lemma indexOf_eq_of_first (l : List ℚ) (a : ℚ) :
    ∀ i, i < l.length → l[i]? = some a →
      (∀ j, j < i → l[j]? ≠ some a) → l.indexOf a = i := by
  induction l with
  | nil =>
      intro i h
      simp at h
  | cons x xs ih =>
      intro i h hget hbefore
      cases i with
      | zero =>
          have hx : x = a := by simpa using hget
          rw [hx]
          exact List.indexOf_cons_self a xs
      | succ j =>
          have hx : x ≠ a := by
            have h0 := hbefore 0 (Nat.succ_pos j)
            simpa using h0
          have hb : (x == a) = false := beq_false_of_ne hx
          have hj := ih j (by simpa using h) (by simpa using hget)
            (fun m hm => by
              have := hbefore (m + 1) (Nat.succ_lt_succ hm)
              simpa using this)
          simp [List.indexOf_cons, hb, hj]

lemma argmax_oneHot (n i : Nat) (h : i < n) : argmax (oneHot n i) = i := by
  have hm : (oneHot n i).maximum = ((1 : ℚ) : WithBot ℚ) := oneHot_maximum n i h
  rw [argmax, hm]
  show (oneHot n i).indexOf 1 = i
  apply indexOf_eq_of_first _ _ i (by rw [oneHot_length]; exact h)
  · rw [oneHot_getElem n i i h]
    simp
  · intro j hj
    rw [oneHot_getElem n i j (lt_trans hj h)]
    simp [Nat.ne_of_lt hj]

/-- C4: the label-to-index mapping comes from the alphabetical ordering of
the class directories and the decoding loop inverts it: the loop succeeds,
the produced labels list maps the index of every class name back to that
name, and for a generator sample loaded from directory c, whose label is
the one-hot vector at the class index of c, labels[argmax(y)] is c. -/
theorem label_decoding_inverse (classes : List String)
    (hlen : classes.length ≤ 17) :
    ∃ L, decodeLoop (classIndexPairs classes) initialLabels = some L ∧
      (∀ c ∈ classes, L[classIndexOf classes c]? = some (some c)) ∧
      (∀ c ∈ classes,
        L[argmax (oneHot classes.length (classIndexOf classes c))]? =
          some (some c)) := by
  have hlt : ∀ p ∈ classIndexPairs classes, p.2 < initialLabels.length := by
    intro p hp
    have hsnd : p.2 ∈ (classIndexPairs classes).map Prod.snd :=
      List.mem_map_of_mem Prod.snd hp
    rw [classIndexPairs_snd, List.mem_range, sorted_length] at hsnd
    rw [initialLabels_length]
    omega
  have hnd : ((classIndexPairs classes).map Prod.snd).Nodup := by
    rw [classIndexPairs_snd]
    exact List.nodup_range _
  obtain ⟨L, hL, _, hmem, _⟩ := decodeLoop_spec _ _ hlt hnd
  have hkey : ∀ c ∈ classes, L[classIndexOf classes c]? = some (some c) :=
    fun c hc => hmem _ (classIndexOf_pair_mem classes c hc)
  refine ⟨L, hL, hkey, fun c hc => ?_⟩
  rw [argmax_oneHot _ _ (classIndexOf_lt classes c hc)]
  exact hkey c hc

/-- C4 witness: the decoding inverse property evaluated on a concrete
three-class directory listing. -/
theorem label_decoding_inverse_witness :
    ∃ L, decodeLoop (classIndexPairs ["rose", "daisy", "tulip"])
        initialLabels = some L ∧
      (∀ c ∈ ["rose", "daisy", "tulip"],
        L[classIndexOf ["rose", "daisy", "tulip"] c]? = some (some c)) ∧
      (∀ c ∈ ["rose", "daisy", "tulip"],
        L[argmax (oneHot (["rose", "daisy", "tulip"] : List String).length
            (classIndexOf ["rose", "daisy", "tulip"] c))]? =
          some (some c)) :=
  label_decoding_inverse ["rose", "daisy", "tulip"] (by decide)

/-- C9 counterexample: with a single class directory the loop leaves the
other 16 slots as None (as the claim says), but the lookup
labels[argmax(y)] on the only one-hot label the generator can serve
decodes to the class name, not to None: argmax of the 1-class one-hot is 0
and slot 0 holds the name. -/
theorem one_class_lookup_decodes_to_name :
    decodeLoop (classIndexPairs ["daisy"]) initialLabels =
      some (initialLabels.set 0 (some "daisy")) ∧
    (initialLabels.set 0 (some "daisy"))[16]? = some none ∧
    argmax (oneHot 1 0) = 0 ∧
    (initialLabels.set 0 (some "daisy"))[argmax (oneHot 1 0)]? =
      some (some "daisy") := by
  have hpairs : classIndexPairs ["daisy"] = [("daisy", 0)] := by
    rw [classIndexPairs, List.mergeSort_singleton]
    rfl
  rw [hpairs]
  refine ⟨by decide, by decide, ?_, ?_⟩ <;>
    rw [argmax_oneHot 1 0 (by decide)]
  decide

/-- C9 amended: the decoding loop completes without an out-of-bounds index
iff every class index is below 17, i.e. iff there are at most 17 class
directories; with exactly 17 classes no None entry remains; with fewer
classes some entries remain None (slot 16 does), but a labels[argmax(y)]
lookup on a generator-served one-hot decodes to the class name of the
sample, never to None, because argmax of a k-class one-hot is below k. -/
theorem decode_loop_bounds_and_lookup (classes : List String) :
    ((decodeLoop (classIndexPairs classes) initialLabels).isSome ↔
      classes.length ≤ 17) ∧
    (∀ L, decodeLoop (classIndexPairs classes) initialLabels = some L →
      (classes.length = 17 → ∀ i, i < 17 → L[i]? ≠ some none) ∧
      (classes.length < 17 → L[16]? = some none) ∧
      (∀ c ∈ classes,
        L[argmax (oneHot classes.length (classIndexOf classes c))]? =
          some (some c))) := by
  have hnd : ((classIndexPairs classes).map Prod.snd).Nodup := by
    rw [classIndexPairs_snd]
    exact List.nodup_range _
  have hiff : (∀ p ∈ classIndexPairs classes, p.2 < initialLabels.length) ↔
      classes.length ≤ 17 := by
    rw [initialLabels_length]
    constructor
    · intro h
      by_contra hgt
      push_neg at hgt
      have h17 : (17 : Nat) ∈ (classIndexPairs classes).map Prod.snd := by
        rw [classIndexPairs_snd, List.mem_range, sorted_length]
        omega
      obtain ⟨p, hp, hpe⟩ := List.mem_map.mp h17
      have := h p hp
      omega
    · intro h p hp
      have hsnd : p.2 ∈ (classIndexPairs classes).map Prod.snd :=
        List.mem_map_of_mem Prod.snd hp
      rw [classIndexPairs_snd, List.mem_range, sorted_length] at hsnd
      omega
  constructor
  · rw [decodeLoop_isSome_iff]
    exact hiff
  · intro L hL
    have hle : classes.length ≤ 17 := by
      have : (decodeLoop (classIndexPairs classes) initialLabels).isSome := by
        rw [hL]
        rfl
      rw [decodeLoop_isSome_iff] at this
      exact hiff.mp this
    have hlt : ∀ p ∈ classIndexPairs classes, p.2 < initialLabels.length :=
      hiff.mpr hle
    obtain ⟨L2, hL2, _, hmem, hout⟩ := decodeLoop_spec _ _ hlt hnd
    rw [hL] at hL2
    have hLeq : L2 = L := by
      injection hL2 with h
      exact h.symm
    rw [hLeq] at hmem hout
    refine ⟨?_, ?_, ?_⟩
    · intro h17 i hi hnone
      have hmi : i ∈ (classIndexPairs classes).map Prod.snd := by
        rw [classIndexPairs_snd, List.mem_range, sorted_length]
        omega
      obtain ⟨p, hp, hpe⟩ := List.mem_map.mp hmi
      have := hmem p hp
      rw [hpe] at this
      rw [this] at hnone
      simp at hnone
    · intro hless
      have h16 : ∀ p ∈ classIndexPairs classes, p.2 ≠ 16 := by
        intro p hp
        have hsnd : p.2 ∈ (classIndexPairs classes).map Prod.snd :=
          List.mem_map_of_mem Prod.snd hp
        rw [classIndexPairs_snd, List.mem_range, sorted_length] at hsnd
        omega
      rw [hout 16 h16]
      rfl
    · intro c hc
      rw [argmax_oneHot _ _ (classIndexOf_lt classes c hc)]
      exact hmem _ (classIndexOf_pair_mem classes c hc)

/-- C8 witness: the propagation characterization evaluated on a concrete
run whose training step fails. -/
theorem no_exception_handling_errors_propagate_witness :
    runNotebook (Except.ok 1) (fun _ : Nat => Except.ok 2)
        (fun _ : Nat => Except.ok 3) (fun _ : Nat => Except.ok 4)
        (fun _ : Nat => (Except.error "OOM" : Except String Nat)) =
        Except.error "OOM" ↔
      (Except.ok 1 : Except String Nat) = Except.error "OOM" ∨
        ∃ a1, (Except.ok 1 : Except String Nat) = Except.ok a1 ∧
          ((Except.ok 2 : Except String Nat) = Except.error "OOM" ∨
            ∃ a2, (Except.ok 2 : Except String Nat) = Except.ok a2 ∧
              ((Except.ok 3 : Except String Nat) = Except.error "OOM" ∨
                ∃ a3, (Except.ok 3 : Except String Nat) = Except.ok a3 ∧
                  ((Except.ok 4 : Except String Nat) = Except.error "OOM" ∨
                    ∃ a4, (Except.ok 4 : Except String Nat) = Except.ok a4 ∧
                      (Except.error "OOM" : Except String Nat) =
                        Except.error "OOM"))) :=
  no_exception_handling_errors_propagate (Except.ok 1) (fun _ => Except.ok 2)
    (fun _ => Except.ok 3) (fun _ => Except.ok 4)
    (fun _ => Except.error "OOM") "OOM"

/-- C9 amended witness: with the single class directory daisy the decoded
list leaves slot 16 as None. -/
theorem decode_loop_bounds_and_lookup_witness :
    (initialLabels.set 0 (some "daisy"))[16]? = some none := by
  have hL : decodeLoop (classIndexPairs ["daisy"]) initialLabels =
      some (initialLabels.set 0 (some "daisy")) := by
    rw [classIndexPairs, List.mergeSort_singleton]
    decide
  exact ((decode_loop_bounds_and_lookup ["daisy"]).2
    (initialLabels.set 0 (some "daisy")) hL).2.1 (by decide)

end Flowers
